import Mathlib

/-!
Shallow embedding of the tinyrender scene host (tinyrender.h / tinyrender.cpp).

Conventions of the embedding:
* `v3f` becomes `V3 α`, instantiated at `ℚ` for mesh/registry data (exact, decidable)
  and at `ℝ` for the camera algebra, where the float functions `sqrt`, `cos`, `sin`
  are modelled by their exact real counterparts.  Division by zero yields `0`
  (Lean's convention); the float code would produce `inf`/`NaN` there, which the
  relevant theorems point out explicitly.
* the global `std::vector<object_internal> internalObjects` becomes a
  `List ObjectInternal` threaded through each operation;
* OpenGL side effects are modelled where a claim needs them: the contents of the
  uploaded vertex/index buffers are mirrored in `bufferData`/`indexData`, and
  `glDeleteBuffers`/`glDeleteVertexArrays` are recorded as a released-slot trace;
* a failed `assert` is modelled by `Option.none`.
-/

namespace TinyRender

/-- Embedding of `v3f` (three-component vector, `tinyrender.h`). -/
@[ext]
structure V3 (α : Type) where
  x : α
  y : α
  z : α
deriving DecidableEq, Repr

instance [Add α] : Add (V3 α) := ⟨fun a b => ⟨a.x + b.x, a.y + b.y, a.z + b.z⟩⟩

instance [Sub α] : Sub (V3 α) := ⟨fun a b => ⟨a.x - b.x, a.y - b.y, a.z - b.z⟩⟩

instance [Neg α] : Neg (V3 α) := ⟨fun a => ⟨-a.x, -a.y, -a.z⟩⟩

/-- Embedding of `v3f operator*(const v3f&, float)`. -/
instance [Mul α] : HMul (V3 α) α (V3 α) := ⟨fun a k => ⟨a.x * k, a.y * k, a.z * k⟩⟩

/-- Embedding of `v3f operator/(const v3f&, float)`. -/
instance [Div α] : HDiv (V3 α) α (V3 α) := ⟨fun a k => ⟨a.x / k, a.y / k, a.z / k⟩⟩

/-- Embedding of `internalLength2`. -/
def internalLength2 [Mul α] [Add α] (v : V3 α) : α :=
  v.x * v.x + v.y * v.y + v.z * v.z

/-- Embedding of `internalCross`. -/
def internalCross [Mul α] [Sub α] (a b : V3 α) : V3 α :=
  ⟨a.y * b.z - a.z * b.y, a.z * b.x - a.x * b.z, a.x * b.y - a.y * b.x⟩

/-- Embedding of `internalDot`. -/
def internalDot [Mul α] [Add α] (a b : V3 α) : α :=
  a.x * b.x + a.y * b.y + a.z * b.z

/-- Embedding of `internalLength` (float `sqrt` modelled by `Real.sqrt`). -/
noncomputable def internalLength (v : V3 ℝ) : ℝ :=
  Real.sqrt (internalLength2 v)

/-- Embedding of `internalNormalize`.  The source divides componentwise by the
length with no zero guard; in this real-valued model a zero vector normalizes
to the zero vector (float code would produce NaN). -/
noncomputable def internalNormalize (v : V3 ℝ) : V3 ℝ :=
  let vv := internalLength v
  ⟨v.x / vv, v.y / vv, v.z / vv⟩

/-- Embedding of the 4x4 model matrix `float Result[4][4]` used by
`_internalComputeModelMatrix` (`tinyrender.cpp`).  Field `mIJ` is `Result[I][J]`;
`Result[3][0..2]` is the translation column in OpenGL column-major convention. -/
structure M4 where
  m00 : ℚ
  m01 : ℚ
  m02 : ℚ
  m03 : ℚ
  m10 : ℚ
  m11 : ℚ
  m12 : ℚ
  m13 : ℚ
  m20 : ℚ
  m21 : ℚ
  m22 : ℚ
  m23 : ℚ
  m30 : ℚ
  m31 : ℚ
  m32 : ℚ
  m33 : ℚ
deriving DecidableEq, Repr

/-- Embedding of `_internalIdentity`. -/
def internalIdentity : M4 :=
  ⟨1, 0, 0, 0, 0, 1, 0, 0, 0, 0, 1, 0, 0, 0, 0, 1⟩

/-- Embedding of `_internalComputeModelMatrix` (`tinyrender.cpp`): identity, then
the translation column `Result[3][0..2] := p`, then the diagonal scale
(rotation is not supported by this function, per its comment). -/
def internalComputeModelMatrix (p s : V3 ℚ) : M4 :=
  let r := internalIdentity
  let r := { r with m30 := p.x, m31 := p.y, m32 := p.z }
  { r with m00 := s.x, m11 := s.y, m22 := s.z }

/-- Embedding of the public `object` struct (header): transform components plus
vertex / normal / color / triangle arrays. -/
structure Obj where
  position : V3 ℚ := ⟨0, 0, 0⟩
  rotation : V3 ℚ := ⟨0, 0, 0⟩
  scale : V3 ℚ := ⟨1, 1, 1⟩
  vertices : List (V3 ℚ) := []
  normals : List (V3 ℚ) := []
  colors : List (V3 ℚ) := []
  triangles : List Int := []
deriving DecidableEq, Repr

/-- Embedding of `object_internal`.  `vao`/`buffers`/`triangleBuffer` are the
opaque GL handles; `bufferData` mirrors the contents uploaded to the GL array
buffer via `glBufferSubData` (vertices, then normals, then colors) and
`indexData` mirrors the element buffer, so that a claim can talk about the
GPU-resident data of a record. -/
structure ObjectInternal where
  vao : Nat := 0
  buffers : Nat := 0
  triangleBuffer : Nat := 0
  modelMatrix : M4 := internalIdentity
  triangleCount : Int := 0
  isDeleted : Bool := false
  bufferData : List (V3 ℚ) := []
  indexData : List Int := []
deriving DecidableEq, Repr

/-- Embedding of `_internalCreateObject`: default grey colors when the color
array is empty, initial model matrix from position and scale, a single GL
buffer holding vertices then normals then colors, and the triangle buffer. -/
def internalCreateObject (o : Obj) : ObjectInternal :=
  let colors := if o.colors.isEmpty
    then List.replicate o.vertices.length (⟨1/2, 1/2, 1/2⟩ : V3 ℚ)
    else o.colors
  { vao := 0
    buffers := 0
    triangleBuffer := 0
    modelMatrix := internalComputeModelMatrix o.position o.scale
    triangleCount := o.triangles.length
    isDeleted := false
    bufferData := o.vertices ++ o.normals ++ colors
    indexData := o.triangles }

/-- Embedding of `_internalGetNextFreeIndex`: index of the first tombstoned
slot, or the current length when every slot is live (`List.findIdx` returns
the length when no element satisfies the predicate, exactly like the loop). -/
def internalGetNextFreeIndex (objs : List ObjectInternal) : Nat :=
  objs.findIdx (·.isDeleted)

/-- Embedding of `addObject`: create the internal object, take the next free
index, and either append (index equals the length) or overwrite the tombstoned
slot.  Returns the chosen index together with the new registry. -/
def addObject (objs : List ObjectInternal) (o : Obj) : Nat × List ObjectInternal :=
  let internalObject := internalCreateObject o
  let index := internalGetNextFreeIndex objs
  if index = objs.length then (index, objs ++ [internalObject])
  else (index, objs.set index internalObject)

/-- Embedding of `_internalDeleteObject`: `false` on an already tombstoned slot,
otherwise destroy the GL buffers (recorded as the released-slot trace `[i]`)
and set the tombstone flag.  The out-of-range branch is unreachable: every
caller checks the range (or asserts it) first. -/
def internalDeleteObject (objs : List ObjectInternal) (i : Nat) :
    Bool × List ObjectInternal × List Nat :=
  if h : i < objs.length then
    let obj := objs[i]
    if obj.isDeleted then (false, objs, [])
    else (true, objs.set i { obj with isDeleted := true }, [i])
  else (false, objs, [])

/-- Embedding of `_internalTryDeleteObject`: `false` when the id is negative or
not below the registry length; otherwise the scan `for i ...: if i == id` hits
exactly index `id`, so it reduces to `_internalDeleteObject id`. -/
def internalTryDeleteObject (objs : List ObjectInternal) (id : Int) :
    Bool × List ObjectInternal × List Nat :=
  if id < 0 ∨ (objs.length : Int) ≤ id then (false, objs, [])
  else internalDeleteObject objs id.toNat

/-- Embedding of `removeObject`: `assert(id >= 0 && id < size)` then
`_internalDeleteObject(id)`.  A violated assert is modelled by `none`. -/
def removeObject (objs : List ObjectInternal) (id : Int) :
    Option (Bool × List ObjectInternal × List Nat) :=
  if 0 ≤ id ∧ id < (objs.length : Int) then some (internalDeleteObject objs id.toNat)
  else none

/-- Embedding of the transform overload of `updateObject` (id, position, scale):
`assert` the range, then recompute only that record's model matrix via
`_internalComputeModelMatrix`.  No GL call is made, so the uploaded buffer
data is untouched. -/
def updateObjectTransform (objs : List ObjectInternal) (id : Int) (p s : V3 ℚ) :
    Option (List ObjectInternal) :=
  if h : 0 ≤ id ∧ id.toNat < objs.length then
    some (objs.set id.toNat
      { objs[id.toNat] with modelMatrix := internalComputeModelMatrix p s })
  else none

/-! Interaction state and callbacks. -/

/-- GLFW constants used by the callbacks (values from `glfw3.h`). -/
def GLFW_RELEASE : Int := 0

def GLFW_PRESS : Int := 1

def GLFW_MOUSE_BUTTON_LEFT : Int := 0

def GLFW_MOUSE_BUTTON_MIDDLE : Int := 2

/-- Embedding of the interaction-relevant fields of `scene_internal`. -/
structure SceneInteraction where
  selectedObjectIndex : Int := -1
  currentMouseButton : Int := -1
  isMouseOverGui : Bool := false
  mouseLastX : ℚ := 0
  mouseLastY : ℚ := 0
deriving DecidableEq, Repr

/-- Embedding of `_internalMouseButtonCallback`: a press records the button; a
release resets it and, when the pointer is not over the GUI and the gizmo is
not in use (`ImGuizmo::IsUsing()`, passed as a parameter), clears the
selection. -/
def mouseButtonCallback (gizmoIsUsing : Bool) (button action : Int)
    (s : SceneInteraction) : SceneInteraction :=
  if action = GLFW_PRESS then { s with currentMouseButton := button }
  else if action = GLFW_RELEASE then
    let s1 := { s with currentMouseButton := -1 }
    if ¬s1.isMouseOverGui ∧ ¬gizmoIsUsing then { s1 with selectedObjectIndex := -1 }
    else s1
  else s

/-- Embedding of the `GLFW_KEY_DELETE` branch of `_internalKeyCallback` (press
action): try to delete the selected object, and clear the selection only when
the deletion succeeded.  The other branches change the gizmo operation or move
the camera and touch neither the registry nor the selection. -/
def keyCallbackDelete (objs : List ObjectInternal) (s : SceneInteraction) :
    List ObjectInternal × SceneInteraction :=
  let r := internalTryDeleteObject objs s.selectedObjectIndex
  (r.2.1, if r.1 then { s with selectedObjectIndex := -1 } else s)

/-- Embedding of one `ImGui::Selectable` click in `_internalRenderGui`'s scene
list: tombstoned slots are skipped by the loop, a click on the entry of live
slot `i` sets `selectedObjectIndex := i`. -/
def guiSelectObject (objs : List ObjectInternal) (i : Nat) (s : SceneInteraction) :
    SceneInteraction :=
  if h : i < objs.length then
    if (objs[i]).isDeleted then s else { s with selectedObjectIndex := (i : Int) }
  else s

/-! Camera model (`scene_internal` camera fields and `_internalCameraMove`),
over exact reals. -/

/-- Embedding of the camera fields of `scene_internal`: eye, look-at point and
up vector (defaults `eye = (10,0,0)`, `at = (0,0,0)`, `up = (0,1,0)`). -/
@[ext]
structure CameraState where
  eye : V3 ℝ
  «at» : V3 ℝ
  up : V3 ℝ

/-- The camera state as default-initialized by `scene_internal`. -/
noncomputable def defaultCamera : CameraState :=
  { eye := ⟨10, 0, 0⟩, «at» := ⟨0, 0, 0⟩, up := ⟨0, 1, 0⟩ }

/-- Embedding of the yaw block of `_internalCameraMove` (executed when
`x != 0`): rotate `f = at - eye` and `s = up x f` about the world Y axis by
`x`, zeroing the rotated side vector's Y component, then re-derive `up` by a
normalized cross product and move the eye. -/
noncomputable def cameraYaw (x : ℝ) (c : CameraState) : CameraState :=
  let f := c.«at» - c.eye
  let s := internalCross c.up f
  let f2 : V3 ℝ := ⟨f.x * Real.cos x - f.z * Real.sin x, f.y,
    f.x * Real.sin x + f.z * Real.cos x⟩
  let s2 : V3 ℝ := ⟨s.x * Real.cos x - s.z * Real.sin x, 0,
    s.x * Real.sin x + s.z * Real.cos x⟩
  { c with up := internalNormalize (internalCross s2 (-f2)), eye := c.«at» - f2 }

/-- Embedding of the pitch block of `_internalCameraMove` (executed when
`y != 0`). -/
noncomputable def cameraPitch (y : ℝ) (c : CameraState) : CameraState :=
  let f := c.«at» - c.eye
  let length := internalLength f
  let f1 := f / length
  let s := internalNormalize (internalCross c.up f1)
  let f2 := f1 * Real.cos y + c.up * Real.sin y
  { c with up := internalCross f2 s, eye := c.«at» - f2 * length }

/-- Embedding of the dolly block of `_internalCameraMove` (executed when
`z != 0`): move the eye along the normalized view direction by
`z * |at - eye| * 0.025`.  No minimum-distance clamp appears in the source. -/
noncomputable def cameraDolly (z : ℝ) (c : CameraState) : CameraState :=
  let f := c.«at» - c.eye
  let moveScale := internalLength f * 0.025
  { c with eye := c.eye + (internalNormalize f * z) * moveScale }

/-- Embedding of the horizontal pan block of `_internalCameraMove`. -/
noncomputable def cameraPanX (xPlane : ℝ) (c : CameraState) : CameraState :=
  let f := c.«at» - c.eye
  let s := internalNormalize (internalCross c.up f)
  { c with eye := c.eye + s * xPlane, «at» := c.«at» + s * xPlane }

/-- Embedding of the vertical pan block of `_internalCameraMove`. -/
noncomputable def cameraPanY (yPlane : ℝ) (c : CameraState) : CameraState :=
  let u := c.up
  { c with eye := c.eye + u * yPlane, «at» := c.«at» + u * yPlane }

/-- Embedding of `_internalCameraMove`: the five blocks run in order, each
guarded by its argument being nonzero, each reading the state left by the
previous one. -/
noncomputable def internalCameraMove (x y z xPlane yPlane : ℝ)
    (c : CameraState) : CameraState :=
  let c1 := if x ≠ 0 then cameraYaw x c else c
  let c2 := if y ≠ 0 then cameraPitch y c1 else c1
  let c3 := if z ≠ 0 then cameraDolly z c2 else c2
  let c4 := if xPlane ≠ 0 then cameraPanX xPlane c3 else c3
  if yPlane ≠ 0 then cameraPanY yPlane c4 else c4

/-- The `mouseScrollingSpeed` field of `scene_internal` (default `2.0f`,
never written elsewhere). -/
noncomputable def mouseScrollingSpeed : ℝ := 2

/-- Embedding of `_internalScrollCallback`: scrolling by `y` dollies by
`y * mouseScrollingSpeed`. -/
noncomputable def internalScrollCallback (y : ℝ) (c : CameraState) : CameraState :=
  internalCameraMove 0 0 (y * mouseScrollingSpeed) 0 0 c

/-- The rotation about the world Y axis used inside the yaw block (this is
exactly the update applied to `f`). -/
noncomputable def rotY (x : ℝ) (v : V3 ℝ) : V3 ℝ :=
  ⟨v.x * Real.cos x - v.z * Real.sin x, v.y, v.x * Real.sin x + v.z * Real.cos x⟩

instance [Zero α] : Zero (V3 α) := ⟨⟨0, 0, 0⟩⟩

/-- The vector the yaw block passes to `internalNormalize` when recomputing
`up`. -/
noncomputable def yawNormalizeArg (x : ℝ) (c : CameraState) : V3 ℝ :=
  let f := c.«at» - c.eye
  let s := internalCross c.up f
  let f2 : V3 ℝ := ⟨f.x * Real.cos x - f.z * Real.sin x, f.y,
    f.x * Real.sin x + f.z * Real.cos x⟩
  let s2 : V3 ℝ := ⟨s.x * Real.cos x - s.z * Real.sin x, 0,
    s.x * Real.sin x + s.z * Real.cos x⟩
  internalCross s2 (-f2)

/-- A sequence of orbit operations: each element `(x, y)` is one
`_internalCameraMove(x, y, 0, 0, 0)` call (yaw and/or pitch). -/
noncomputable def orbitSeq : CameraState → List (ℝ × ℝ) → CameraState
  | c, [] => c
  | c, op :: rest => orbitSeq (internalCameraMove op.1 op.2 0 0 0 c) rest

/-- Along a run of orbit operations, every executed yaw block hands
`internalNormalize` a nonzero vector (the side condition under which the
orbit invariant survives). -/
def orbitOpsOK : CameraState → List (ℝ × ℝ) → Prop
  | _, [] => True
  | c, op :: rest =>
      (op.1 ≠ 0 → yawNormalizeArg op.1 c ≠ 0) ∧
      orbitOpsOK (internalCameraMove op.1 op.2 0 0 0 c) rest

/-- `n` repetitions of the pure-yaw orbit `_internalCameraMove(x, 0, 0, 0, 0)`. -/
noncomputable def orbitIter (x : ℝ) : ℕ → CameraState → CameraState
  | 0, c => c
  | n + 1, c => orbitIter x n (internalCameraMove x 0 0 0 0 c)

/-- The camera invariant stated by the specification: unit up vector,
orthogonal to the look direction, with distinct eye and look-at point. -/
def cameraInvariant (c : CameraState) : Prop :=
  internalLength c.up = 1 ∧ internalDot c.up (c.«at» - c.eye) = 0 ∧
    c.«at» - c.eye ≠ 0

/-- The camera is not "rolled": the side vector `up x (at - eye)` computed by
the yaw block is horizontal, so the block's Y-component zeroing is lossless. -/
def rollFree (c : CameraState) : Prop :=
  (internalCross c.up (c.«at» - c.eye)).y = 0

/-- Degenerate camera with `eye == at` (claim C4). -/
noncomputable def degenerateCamera : CameraState :=
  { eye := ⟨0, 0, 0⟩, «at» := ⟨0, 0, 0⟩, up := ⟨0, 1, 0⟩ }

/-- A camera satisfying the orbit invariant (unit `up`, orthogonal to the look
direction) whose side vector `up x (at - eye)` is vertical: the yaw block's
Y-zeroing collapses it to the zero vector. -/
noncomputable def rolledUpCamera : CameraState :=
  { eye := ⟨0, 0, -1⟩, «at» := ⟨0, 0, 0⟩, up := ⟨1, 0, 0⟩ }

/-- A camera with `eye != at` whose up vector is not unit length: a full yaw
turn cannot restore it, because every yaw step renormalizes `up`. -/
noncomputable def skewedCamera : CameraState :=
  { eye := ⟨-1, -1, 0⟩, «at» := ⟨0, 0, 0⟩, up := ⟨0, 0, 2⟩ }

/-! OBJ export. -/

/-- One line of the text written by `exportObjFile`. -/
inductive ObjLine
  | g (name : String)
  | v (x y z : ℚ)
  | vn (x y z : ℚ)
  | f (v1 n1 v2 n2 v3 n3 : Int)
deriving DecidableEq, Repr

/-- The face lines written by `exportObjFile`'s third loop (`i += 3`): each
triangle triple becomes a face of three 1-based `v//vn` pairs whose two
indices coincide (`triangles.at(i) + 1` twice). -/
def exportFaces : List Int → List ObjLine
  | t1 :: t2 :: t3 :: rest =>
      ObjLine.f (t1 + 1) (t1 + 1) (t2 + 1) (t2 + 1) (t3 + 1) (t3 + 1) :: exportFaces rest
  | _ => []

/-- Embedding of `exportObjFile` as the list of lines it writes: the group
line, one `v` line per vertex in `x y z` order, one `vn` line per normal
written as `x z y` (the source swaps the last two components), then the face
lines. -/
def exportObjFile (o : Obj) : List ObjLine :=
  [ObjLine.g "Obj"]
    ++ o.vertices.map (fun p => ObjLine.v p.x p.y p.z)
    ++ o.normals.map (fun p => ObjLine.vn p.x p.z p.y)
    ++ exportFaces o.triangles

/-! Helper lemmas. -/

theorem findIdx_eq_of {α : Type} {p : α → Bool} {xs : List α} {i : Nat}
    (hi : i < xs.length) (hp : p xs[i] = true)
    (hbelow : ∀ j (hj : j < xs.length), j < i → p xs[j] = false) :
    xs.findIdx p = i := by
  have hle : xs.findIdx p ≤ i := by
    by_contra h
    push_neg at h
    have hfalse := List.not_of_lt_findIdx h
    rw [hp] at hfalse
    simp at hfalse
  have hge : i ≤ xs.findIdx p := by
    by_contra h
    push_neg at h
    have hlt : xs.findIdx p < xs.length := lt_trans h hi
    have htrue : p xs[xs.findIdx p] = true := @List.findIdx_getElem _ p xs hlt
    have hfalse := hbelow _ hlt h
    rw [htrue] at hfalse
    simp at hfalse
  omega

theorem addObject_fst (objs : List ObjectInternal) (o : Obj) :
    (addObject objs o).1 = internalGetNextFreeIndex objs := by
  by_cases h : internalGetNextFreeIndex objs = objs.length <;> simp [addObject, h]

theorem addObject_snd_of_lt (objs : List ObjectInternal) (o : Obj)
    (h : internalGetNextFreeIndex objs < objs.length) :
    (addObject objs o).2 = objs.set (internalGetNextFreeIndex objs)
      (internalCreateObject o) := by
  simp [addObject, Nat.ne_of_lt h]

theorem addObject_snd_of_eq (objs : List ObjectInternal) (o : Obj)
    (h : internalGetNextFreeIndex objs = objs.length) :
    (addObject objs o).2 = objs ++ [internalCreateObject o] := by
  simp [addObject, h]

theorem addObject_index_le (objs : List ObjectInternal) (o : Obj) :
    (addObject objs o).1 ≤ objs.length := by
  rw [addObject_fst]
  exact List.findIdx_le_length _

theorem getNextFreeIndex_eq_length_iff (objs : List ObjectInternal) :
    internalGetNextFreeIndex objs = objs.length ↔ ∀ r ∈ objs, r.isDeleted = false := by
  unfold internalGetNextFreeIndex
  exact List.findIdx_eq_length

/-- C1: when a tombstone exists, `addObject` returns an in-range index whose
slot was tombstoned and is the lowest such (every tombstoned index is at or
above it), overwrites that slot with the new record and keeps the registry
length; it appends, returning the old length, exactly when every slot is live;
and in the `create, delete(id), create` sequence the second create returns the
same id, from any starting registry. -/
theorem addObject_reuses_lowest_tombstone (objs : List ObjectInternal) (o o2 : Obj) :
    ((∃ r ∈ objs, r.isDeleted = true) →
      (addObject objs o).1 < objs.length ∧
      objs[(addObject objs o).1]?.map (·.isDeleted) = some true ∧
      (∀ j (hj : j < objs.length), objs[j].isDeleted = true → (addObject objs o).1 ≤ j) ∧
      (addObject objs o).2.length = objs.length ∧
      (addObject objs o).2[(addObject objs o).1]? = some (internalCreateObject o)) ∧
    ((∀ r ∈ objs, r.isDeleted = false) →
      (addObject objs o).1 = objs.length ∧
      (addObject objs o).2 = objs ++ [internalCreateObject o]) ∧
    (∀ i objs1, addObject objs o = (i, objs1) →
      ∃ objs2, removeObject objs1 (i : Int) = some (true, objs2, [i]) ∧
        (addObject objs2 o2).1 = i) := by
  have hfst := addObject_fst objs o
  refine ⟨?_, ?_, ?_⟩
  · intro hex
    have hlt : internalGetNextFreeIndex objs < objs.length :=
      List.findIdx_lt_length_of_exists hex
    have hsnd := addObject_snd_of_lt objs o hlt
    refine ⟨by omega, ?_, ?_, ?_, ?_⟩
    · have hlt2 : List.findIdx (fun r => r.isDeleted) objs < objs.length := hlt
      rw [hfst, List.getElem?_eq_getElem hlt, Option.map_some', Option.some_inj]
      exact @List.findIdx_getElem _ (fun r => r.isDeleted) objs hlt2
    · intro j hj hdel
      rw [hfst]
      unfold internalGetNextFreeIndex
      by_contra h
      push_neg at h
      have hfalse := List.not_of_lt_findIdx h
      simp only at hfalse
      rw [hdel] at hfalse
      simp at hfalse
    · rw [hsnd, List.length_set]
    · rw [hsnd, hfst, List.getElem?_set]
      simp [hlt]
  · intro hall
    have heq : internalGetNextFreeIndex objs = objs.length := by
      unfold internalGetNextFreeIndex
      rw [List.findIdx_eq_length]
      intro x hx
      exact hall x hx
    exact ⟨by rw [hfst, heq], addObject_snd_of_eq objs o heq⟩
  · intro i objs1 hadd
    have hi : i = (addObject objs o).1 := by rw [hadd]
    have hobjs1 : objs1 = (addObject objs o).2 := by rw [hadd]
    -- the new record occupies slot i, is live, and every slot below i is live
    have hilt : i < objs1.length ∧ objs1[i]? = some (internalCreateObject o) ∧
        ∀ j (hj : j < objs1.length), j < i → objs1[j]?.map (·.isDeleted) = some false := by
      by_cases hcase : internalGetNextFreeIndex objs < objs.length
      · have hsnd := addObject_snd_of_lt objs o hcase
        have hidx : i = internalGetNextFreeIndex objs := by rw [hi, hfst]
        refine ⟨?_, ?_, ?_⟩
        · rw [hobjs1, hsnd, List.length_set]
          omega
        · rw [hobjs1, hsnd, hidx, List.getElem?_set]
          simp [hcase]
        · intro j hj hji
          rw [hobjs1, hsnd] at hj ⊢
          rw [List.length_set] at hj
          rw [List.getElem?_set]
          have hne : internalGetNextFreeIndex objs ≠ j := by omega
          simp only [hne, if_false]
          have hjlt : j < List.findIdx (fun r => r.isDeleted) objs := by
            rw [hidx] at hji
            unfold internalGetNextFreeIndex at hji
            exact hji
          have hfalse := List.not_of_lt_findIdx hjlt
          simp only at hfalse
          rw [List.getElem?_eq_getElem hj, Option.map_some']
          rw [hfalse]
      · have heq : internalGetNextFreeIndex objs = objs.length := by
          have := @List.findIdx_le_length _ (·.isDeleted) objs
          unfold internalGetNextFreeIndex at hcase ⊢
          omega
        have hsnd := addObject_snd_of_eq objs o heq
        have hidx : i = objs.length := by rw [hi, hfst, heq]
        refine ⟨?_, ?_, ?_⟩
        · rw [hobjs1, hsnd, List.length_append]
          simp [hidx]
        · rw [hobjs1, hsnd, hidx]
          rw [List.getElem?_append_right (le_refl _)]
          simp
        · intro j hj hji
          rw [hobjs1, hsnd] at hj ⊢
          rw [hidx] at hji
          rw [List.getElem?_append_left hji]
          have hall : ∀ r ∈ objs, r.isDeleted = false :=
            (getNextFreeIndex_eq_length_iff objs).mp heq
          rw [List.getElem?_eq_getElem hji, Option.map_some']
          rw [hall _ (List.getElem_mem hji)]
    obtain ⟨hilt, hget, hbelow⟩ := hilt
    have hlive : objs1[i].isDeleted = false := by
      have : objs1[i]? = some objs1[i] := List.getElem?_eq_getElem hilt
      rw [this] at hget
      rw [Option.some_inj] at hget
      rw [hget]
      rfl
    -- removeObject succeeds: in range and live
    have hrange : (0 : Int) ≤ (i : Int) ∧ (i : Int) < (objs1.length : Int) := by
      constructor
      · exact Int.ofNat_nonneg i
      · exact_mod_cast hilt
    have hdel : internalDeleteObject objs1 i =
        (true, objs1.set i { objs1[i] with isDeleted := true }, [i]) := by
      unfold internalDeleteObject
      rw [dif_pos hilt, if_neg (by rw [hlive]; exact Bool.false_ne_true)]
    refine ⟨objs1.set i { objs1[i] with isDeleted := true }, ?_, ?_⟩
    · unfold removeObject
      rw [if_pos hrange]
      simp only [Int.toNat_ofNat]
      rw [hdel]
    · rw [addObject_fst]
      unfold internalGetNextFreeIndex
      have hlen : i < (objs1.set i { objs1[i] with isDeleted := true }).length := by
        rw [List.length_set]
        exact hilt
      refine findIdx_eq_of hlen ?_ ?_
      · rw [List.getElem_set]
        simp
      · intro j hj hji
        rw [List.length_set] at hj
        rw [List.getElem_set]
        have hne : i ≠ j := by omega
        simp only [hne, if_false]
        have hmap := hbelow j hj hji
        rw [List.getElem?_eq_getElem hj, Option.map_some'] at hmap
        simpa using hmap

/-- Witness for C1 at a concrete registry whose slot 1 is the lowest tombstone:
`addObject` returns an in-range index whose slot was tombstoned. -/
theorem addObject_reuses_lowest_tombstone_witness :
    (∃ r ∈ [({} : ObjectInternal), { isDeleted := true }, { isDeleted := true }],
      r.isDeleted = true) ∧
    (addObject [({} : ObjectInternal), { isDeleted := true }, { isDeleted := true }] {}).1 <
      ([({} : ObjectInternal), { isDeleted := true }, { isDeleted := true }]).length ∧
    ([({} : ObjectInternal), { isDeleted := true },
        { isDeleted := true }])[(addObject [({} : ObjectInternal), { isDeleted := true },
        { isDeleted := true }] {}).1]?.map (·.isDeleted) = some true := by
  have h := (addObject_reuses_lowest_tombstone
    [({} : ObjectInternal), { isDeleted := true }, { isDeleted := true }] {} {}).1
  exact ⟨by decide, (h (by decide)).1, (h (by decide)).2.1⟩

/-- C6 counterexample: on an out-of-range id, `removeObject` does not return
`false` as the claim states: it violates its `assert(id >= 0 && id < size)`
(a fatal path, modelled by `none`).  Shown on the empty registry at id 0. -/
theorem removeObject_out_of_range_asserts :
    removeObject ([] : List ObjectInternal) 0 = none := by decide

/-- C6 (amended): for ids that pass the range assert, `removeObject` is
idempotent: it returns `true` and releases the slot's GPU resources exactly on
the first call for a live slot, returns `false` with no state change and no
release on an already tombstoned slot, and any repeated call after a first one
returns `false`, changes nothing and releases nothing.  Out-of-range ids are
an assertion failure, not a `false` return (only the internal keyboard path
`_internalTryDeleteObject` range-checks and returns `false`). -/
theorem removeObject_idempotent_in_range (objs : List ObjectInternal) (i : Nat)
    (h : i < objs.length) :
    (objs[i].isDeleted = false →
      removeObject objs (i : Int) =
        some (true, objs.set i { objs[i] with isDeleted := true }, [i])) ∧
    (objs[i].isDeleted = true → removeObject objs (i : Int) = some (false, objs, [])) ∧
    (∀ ok objs1 rel, removeObject objs (i : Int) = some (ok, objs1, rel) →
      removeObject objs1 (i : Int) = some (false, objs1, [])) := by
  have hrange : (0 : Int) ≤ (i : Int) ∧ (i : Int) < (objs.length : Int) :=
    ⟨Int.ofNat_nonneg i, by exact_mod_cast h⟩
  have hro : removeObject objs (i : Int) = some (internalDeleteObject objs i) := by
    unfold removeObject
    rw [if_pos hrange]
    simp
  refine ⟨?_, ?_, ?_⟩
  · intro hlive
    rw [hro]
    unfold internalDeleteObject
    rw [dif_pos h, if_neg (by rw [hlive]; simp)]
  · intro hdead
    rw [hro]
    unfold internalDeleteObject
    rw [dif_pos h, if_pos hdead]
  · intro ok objs1 rel hcall
    rw [hro] at hcall
    have heq : internalDeleteObject objs i = (ok, objs1, rel) := Option.some.inj hcall
    by_cases hdead : objs[i].isDeleted = true
    · have hid : internalDeleteObject objs i = (false, objs, []) := by
        unfold internalDeleteObject
        rw [dif_pos h, if_pos hdead]
      rw [hid] at heq
      injection heq with h1 h23
      injection h23 with h2 h3
      subst h2
      rw [hro]
      unfold internalDeleteObject
      rw [dif_pos h, if_pos hdead]
    · have hlive : objs[i].isDeleted = false := by
        cases hv : objs[i].isDeleted
        · rfl
        · exact absurd hv hdead
      have hid : internalDeleteObject objs i =
          (true, objs.set i { objs[i] with isDeleted := true }, [i]) := by
        unfold internalDeleteObject
        rw [dif_pos h, if_neg (by rw [hlive]; simp)]
      rw [hid] at heq
      injection heq with h1 h23
      injection h23 with h2 h3
      subst h2
      have hlen : i < (objs.set i { objs[i] with isDeleted := true }).length := by
        rw [List.length_set]
        exact h
      have hrange2 : (0 : Int) ≤ (i : Int) ∧
          (i : Int) < ((objs.set i { objs[i] with isDeleted := true }).length : Int) :=
        ⟨Int.ofNat_nonneg i, by exact_mod_cast hlen⟩
      unfold removeObject
      rw [if_pos hrange2]
      simp only [Int.toNat_ofNat]
      unfold internalDeleteObject
      rw [dif_pos hlen, if_pos (by rw [List.getElem_set]; simp)]

/-- Witness for C6 (amended) at a one-slot registry: the first delete succeeds
and records one release. -/
theorem removeObject_idempotent_in_range_witness :
    (0 : Nat) < [({} : ObjectInternal)].length ∧
    removeObject [({} : ObjectInternal)] ((0 : Nat) : Int) =
      some (true,
        [({} : ObjectInternal)].set 0
          { ([({} : ObjectInternal)])[0] with isDeleted := true }, [0]) :=
  ⟨by decide, (removeObject_idempotent_in_range [({} : ObjectInternal)] 0 (by decide)).1
    (by decide)⟩

/-- C5 counterexample: selecting live slot 0 through the GUI list then deleting
it through the public `removeObject` path leaves the selection at 0 while slot
0 is tombstoned: `removeObject` neither receives nor modifies the interaction
state, so this deletion path does not clear the selection, and the cleared-on-
delete invariant fails (the selection now references a tombstoned record). -/
theorem removeObject_leaves_selection_dangling :
    (guiSelectObject [internalCreateObject {}] 0 {}).selectedObjectIndex = 0 ∧
    (removeObject [internalCreateObject {}] 0).map
        (fun r => (r.1, r.2.1.map (·.isDeleted), r.2.2)) =
      some (true, [true], [0]) ∧
    (guiSelectObject [internalCreateObject {}] 0 {}).selectedObjectIndex ≠ -1 := by
  decide

/-- C5 (amended): the keyboard Delete path does clear the selection in the same
frame: if the selection references a live in-range slot, the `GLFW_KEY_DELETE`
branch tombstones that slot and resets `selectedObjectIndex` to `-1` (the
"none" value).  Only the public `removeObject` path can leave a dangling
selection. -/
theorem keyDelete_clears_selection (objs : List ObjectInternal)
    (s : SceneInteraction) (i : Nat) (hsel : s.selectedObjectIndex = (i : Int))
    (hi : i < objs.length) (hlive : objs[i].isDeleted = false) :
    (keyCallbackDelete objs s).2.selectedObjectIndex = -1 ∧
    ((keyCallbackDelete objs s).1)[i]? = some { objs[i] with isDeleted := true } := by
  have htry : internalTryDeleteObject objs s.selectedObjectIndex =
      (true, objs.set i { objs[i] with isDeleted := true }, [i]) := by
    unfold internalTryDeleteObject
    rw [hsel]
    have hcond : ¬((i : Int) < 0 ∨ (objs.length : Int) ≤ (i : Int)) := by
      push_neg
      exact ⟨Int.ofNat_nonneg i, by exact_mod_cast hi⟩
    rw [if_neg hcond]
    simp only [Int.toNat_ofNat]
    unfold internalDeleteObject
    rw [dif_pos hi, if_neg (by rw [hlive]; simp)]
  unfold keyCallbackDelete
  rw [htry]
  refine ⟨rfl, ?_⟩
  simp only
  rw [List.getElem?_set]
  simp [hi]

/-- Witness for C5 (amended) at a one-object registry with slot 0 selected. -/
theorem keyDelete_clears_selection_witness :
    (keyCallbackDelete [({} : ObjectInternal)]
      { selectedObjectIndex := 0 }).2.selectedObjectIndex = -1 ∧
    ((keyCallbackDelete [({} : ObjectInternal)] { selectedObjectIndex := 0 }).1)[0]? =
      some { ([({} : ObjectInternal)])[0] with isDeleted := true } :=
  keyDelete_clears_selection [({} : ObjectInternal)] { selectedObjectIndex := 0 } 0
    (by decide) (by decide) (by decide)

/-- C8 counterexample: the source stores no drag-since-press information at
all, and the release handler never consults one.  From a state with selection
5, a drag in progress (left button held, last pointer position far from the
origin) and the pointer off the GUI, a button release with the gizmo inactive
clears the selection, contradicting the claim that a release ending a
non-trivial drag preserves it. -/
theorem release_clears_selection_after_drag :
    (mouseButtonCallback false GLFW_MOUSE_BUTTON_LEFT GLFW_RELEASE
      { selectedObjectIndex := 5, currentMouseButton := GLFW_MOUSE_BUTTON_LEFT,
        isMouseOverGui := false, mouseLastX := 100,
        mouseLastY := 100 }).selectedObjectIndex = -1 ∧
    ((5 : Int) ≠ -1) := by
  decide

/-- C8 (amended): on every button release, the held-button marker resets, and
the selection is cleared exactly when the pointer is not over the GUI and the
gizmo is not in use - unconditionally, with no drag-distance test; releases
over the GUI or with the gizmo active preserve the selection. -/
theorem mouseRelease_selection_behavior (gizmoIsUsing : Bool) (button : Int)
    (s : SceneInteraction) :
    (mouseButtonCallback gizmoIsUsing button GLFW_RELEASE s).currentMouseButton = -1 ∧
    (s.isMouseOverGui = false → gizmoIsUsing = false →
      (mouseButtonCallback gizmoIsUsing button GLFW_RELEASE s).selectedObjectIndex = -1) ∧
    (s.isMouseOverGui = true ∨ gizmoIsUsing = true →
      (mouseButtonCallback gizmoIsUsing button GLFW_RELEASE s).selectedObjectIndex =
        s.selectedObjectIndex) := by
  obtain ⟨sel, btn, gui, mx, my⟩ := s
  cases hg : gizmoIsUsing <;> cases hm : gui <;>
    simp [mouseButtonCallback, GLFW_RELEASE, GLFW_PRESS]

/-- Witness for C8 (amended): a release off the GUI with the gizmo inactive
clears a concrete selection. -/
theorem mouseRelease_selection_behavior_witness :
    (mouseButtonCallback false GLFW_MOUSE_BUTTON_MIDDLE GLFW_RELEASE
      { selectedObjectIndex := 3 }).selectedObjectIndex = -1 :=
  (mouseRelease_selection_behavior false GLFW_MOUSE_BUTTON_MIDDLE
    { selectedObjectIndex := 3 }).2.1 (by decide) (by decide)

/-- C7: for every in-range id, the transform overload of `updateObject`
recomputes only that record's baked model matrix: the returned record keeps
every other field (GL handles, triangle count, tombstone flag, and the
mirrored GPU buffer contents holding the vertex/normal/color and triangle
data), every other slot is untouched, and the matrix recomputed for position
`(2,0,0)` and scale `(1,1,1)` (the claim's zero-rotation instance: this
recomputation has no rotation term) is the identity with translation column
`(2,0,0)` - in particular its upper 3x3 is the identity. -/
theorem updateObjectTransform_only_model_matrix (objs : List ObjectInternal)
    (i : Nat) (p s : V3 ℚ) (h : i < objs.length) :
    ∃ objs1, updateObjectTransform objs (i : Int) p s = some objs1 ∧
      objs1.length = objs.length ∧
      objs1[i]? = some { objs[i] with modelMatrix := internalComputeModelMatrix p s } ∧
      (∀ j, j ≠ i → objs1[j]? = objs[j]?) ∧
      internalComputeModelMatrix ⟨2, 0, 0⟩ ⟨1, 1, 1⟩ =
        { internalIdentity with m30 := 2 } := by
  have hcond : (0 : Int) ≤ (i : Int) ∧ ((i : Int)).toNat < objs.length := by
    refine ⟨Int.ofNat_nonneg i, ?_⟩
    simpa using h
  refine ⟨objs.set ((i : Int)).toNat
    { objs[((i : Int)).toNat] with modelMatrix := internalComputeModelMatrix p s },
    ?_, ?_, ?_, ?_, ?_⟩
  · unfold updateObjectTransform
    rw [dif_pos hcond]
  · rw [List.length_set]
  · simp only [Int.toNat_ofNat]
    rw [List.getElem?_set]
    simp [h]
  · intro j hj
    simp only [Int.toNat_ofNat]
    rw [List.getElem?_set]
    rw [if_neg (fun hij => hj hij.symm)]
  · decide

/-- Witness for C7 at a one-slot registry, position `(2,0,0)`, unit scale. -/
theorem updateObjectTransform_only_model_matrix_witness :
    ∃ objs1, updateObjectTransform [({} : ObjectInternal)] ((0 : Nat) : Int)
        ⟨2, 0, 0⟩ ⟨1, 1, 1⟩ = some objs1 ∧
      objs1.length = [({} : ObjectInternal)].length ∧
      objs1[0]? = some { ([({} : ObjectInternal)])[0] with
        modelMatrix := internalComputeModelMatrix ⟨2, 0, 0⟩ ⟨1, 1, 1⟩ } ∧
      (∀ j, j ≠ 0 → objs1[j]? = ([({} : ObjectInternal)])[j]?) ∧
      internalComputeModelMatrix ⟨2, 0, 0⟩ ⟨1, 1, 1⟩ =
        { internalIdentity with m30 := 2 } :=
  updateObjectTransform_only_model_matrix [({} : ObjectInternal)] 0 ⟨2, 0, 0⟩ ⟨1, 1, 1⟩
    (by decide)

theorem exportFaces_getElem? (ts : List Int) (k : Nat) (hk : 3 * k + 2 < ts.length) :
    ∃ t1 t2 t3, ts[3 * k]? = some t1 ∧ ts[3 * k + 1]? = some t2 ∧
      ts[3 * k + 2]? = some t3 ∧
      (exportFaces ts)[k]? =
        some (ObjLine.f (t1 + 1) (t1 + 1) (t2 + 1) (t2 + 1) (t3 + 1) (t3 + 1)) := by
  induction ts using exportFaces.induct generalizing k with
  | case1 t1 t2 t3 rest ih =>
    cases k with
    | zero => exact ⟨t1, t2, t3, by simp [exportFaces]⟩
    | succ k =>
      have hk2 : 3 * k + 2 < rest.length := by
        simp only [List.length_cons] at hk
        omega
      obtain ⟨u1, u2, u3, h1, h2, h3, h4⟩ := ih k hk2
      refine ⟨u1, u2, u3, ?_, ?_, ?_, ?_⟩
      · rw [show 3 * (k + 1) = (3 * k) + 1 + 1 + 1 by ring]
        simpa using h1
      · rw [show 3 * (k + 1) + 1 = (3 * k + 1) + 1 + 1 + 1 by ring]
        simpa using h2
      · rw [show 3 * (k + 1) + 2 = (3 * k + 2) + 1 + 1 + 1 by ring]
        simpa using h3
      · simpa [exportFaces] using h4
  | case2 x hx =>
    exfalso
    -- the fallback pattern only matches lists with fewer than three elements
    match x, hx with
    | [], _ => simp at hk
    | [a], _ => simp at hk
    | [a, b], _ => simp at hk
    | a :: b :: c :: rest, hx => exact absurd rfl (hx a b c rest)

/-- C10: `exportObjFile` writes the group line first; each vertex becomes a
`v` line in `x y z` component order; each normal becomes a `vn` line with the
last two components swapped (`x z y`); and each triangle triple becomes an `f`
line of three 1-based `v//vn` pairs whose normal index equals the vertex
index. -/
theorem exportObjFile_line_layout (o : Obj) :
    ((exportObjFile o)[0]? = some (ObjLine.g "Obj")) ∧
    (∀ i, i < o.vertices.length →
      (exportObjFile o)[1 + i]? =
        o.vertices[i]?.map (fun p => ObjLine.v p.x p.y p.z)) ∧
    (∀ i, i < o.normals.length →
      (exportObjFile o)[1 + o.vertices.length + i]? =
        o.normals[i]?.map (fun p => ObjLine.vn p.x p.z p.y)) ∧
    (∀ k, 3 * k + 2 < o.triangles.length →
      ∃ t1 t2 t3, o.triangles[3 * k]? = some t1 ∧ o.triangles[3 * k + 1]? = some t2 ∧
        o.triangles[3 * k + 2]? = some t3 ∧
        (exportObjFile o)[1 + o.vertices.length + o.normals.length + k]? =
          some (ObjLine.f (t1 + 1) (t1 + 1) (t2 + 1) (t2 + 1) (t3 + 1) (t3 + 1))) := by
  refine ⟨?_, ?_, ?_, ?_⟩
  · unfold exportObjFile
    rw [List.getElem?_append_left (by simp),
      List.getElem?_append_left (by simp),
      List.getElem?_append_left (by simp)]
    rfl
  · intro i hi
    unfold exportObjFile
    rw [List.getElem?_append_left (by simp; omega),
      List.getElem?_append_left (by simp; omega),
      List.getElem?_append_right (by simp)]
    simp only [List.length_singleton, Nat.add_sub_cancel_left]
    rw [List.getElem?_map]
  · intro i hi
    unfold exportObjFile
    rw [List.getElem?_append_left (by simp; omega),
      List.getElem?_append_right (by simp; omega)]
    simp only [List.length_append, List.length_singleton, List.length_map]
    rw [show 1 + o.vertices.length + i - (1 + o.vertices.length) = i by omega]
    rw [List.getElem?_map]
  · intro k hk
    obtain ⟨t1, t2, t3, h1, h2, h3, h4⟩ := exportFaces_getElem? o.triangles k hk
    refine ⟨t1, t2, t3, h1, h2, h3, ?_⟩
    unfold exportObjFile
    rw [List.getElem?_append_right (by simp; omega)]
    simp only [List.length_append, List.length_singleton, List.length_map]
    rw [show 1 + o.vertices.length + o.normals.length + k -
      (1 + o.vertices.length + o.normals.length) = k by omega]
    exact h4

/-- Witness for C10 on a one-triangle object: the vertex line keeps `x y z`
order, the normal line swaps to `x z y`, and the face line pairs equal
indices. -/
theorem exportObjFile_line_layout_witness :
    (0 : Nat) < 1 ∧
    (exportObjFile { vertices := [⟨1, 2, 3⟩], normals := [⟨4, 5, 6⟩], triangles := [0, 0, 0] })[1 + 0]? =
      ({ vertices := [⟨1, 2, 3⟩], normals := [⟨4, 5, 6⟩], triangles := [0, 0, 0] } : Obj).vertices[0]?.map
        (fun p => ObjLine.v p.x p.y p.z) :=
  ⟨by decide, (exportObjFile_line_layout _).2.1 0 (by decide)⟩

/-! Componentwise lemmas for the vector operations. -/

@[simp] theorem V3.add_x [Add α] (a b : V3 α) : (a + b).x = a.x + b.x := rfl

@[simp] theorem V3.add_y [Add α] (a b : V3 α) : (a + b).y = a.y + b.y := rfl

@[simp] theorem V3.add_z [Add α] (a b : V3 α) : (a + b).z = a.z + b.z := rfl

@[simp] theorem V3.sub_x [Sub α] (a b : V3 α) : (a - b).x = a.x - b.x := rfl

@[simp] theorem V3.sub_y [Sub α] (a b : V3 α) : (a - b).y = a.y - b.y := rfl

@[simp] theorem V3.sub_z [Sub α] (a b : V3 α) : (a - b).z = a.z - b.z := rfl

@[simp] theorem V3.neg_x [Neg α] (a : V3 α) : (-a).x = -a.x := rfl

@[simp] theorem V3.neg_y [Neg α] (a : V3 α) : (-a).y = -a.y := rfl

@[simp] theorem V3.neg_z [Neg α] (a : V3 α) : (-a).z = -a.z := rfl

@[simp] theorem V3.smul_x [Mul α] (a : V3 α) (k : α) : (a * k).x = a.x * k := rfl

@[simp] theorem V3.smul_y [Mul α] (a : V3 α) (k : α) : (a * k).y = a.y * k := rfl

@[simp] theorem V3.smul_z [Mul α] (a : V3 α) (k : α) : (a * k).z = a.z * k := rfl

@[simp] theorem V3.div_x [Div α] (a : V3 α) (k : α) : (a / k).x = a.x / k := rfl

@[simp] theorem V3.div_y [Div α] (a : V3 α) (k : α) : (a / k).y = a.y / k := rfl

@[simp] theorem V3.div_z [Div α] (a : V3 α) (k : α) : (a / k).z = a.z / k := rfl

@[simp] theorem V3.zero_x [Zero α] : (0 : V3 α).x = 0 := rfl

@[simp] theorem V3.zero_y [Zero α] : (0 : V3 α).y = 0 := rfl

@[simp] theorem V3.zero_z [Zero α] : (0 : V3 α).z = 0 := rfl

theorem V3.eq_zero_iff [Zero α] (v : V3 α) : v = 0 ↔ v.x = 0 ∧ v.y = 0 ∧ v.z = 0 := by
  constructor
  · intro h
    rw [h]
    exact ⟨rfl, rfl, rfl⟩
  · intro ⟨hx, hy, hz⟩
    ext <;> assumption

/-! Real vector algebra used by the camera proofs. -/

theorem length2_nonneg (v : V3 ℝ) : 0 ≤ internalLength2 v := by
  unfold internalLength2
  nlinarith [mul_self_nonneg v.x, mul_self_nonneg v.y, mul_self_nonneg v.z]

theorem length2_eq_zero_iff (v : V3 ℝ) : internalLength2 v = 0 ↔ v = 0 := by
  unfold internalLength2
  rw [V3.eq_zero_iff]
  constructor
  · intro h
    have hx : v.x * v.x = 0 := by
      nlinarith [mul_self_nonneg v.x, mul_self_nonneg v.y, mul_self_nonneg v.z]
    have hy : v.y * v.y = 0 := by
      nlinarith [mul_self_nonneg v.x, mul_self_nonneg v.y, mul_self_nonneg v.z]
    have hz : v.z * v.z = 0 := by
      nlinarith [mul_self_nonneg v.x, mul_self_nonneg v.y, mul_self_nonneg v.z]
    exact ⟨mul_self_eq_zero.mp hx, mul_self_eq_zero.mp hy, mul_self_eq_zero.mp hz⟩
  · intro ⟨hx, hy, hz⟩
    rw [hx, hy, hz]
    ring

theorem length2_pos (v : V3 ℝ) (h : v ≠ 0) : 0 < internalLength2 v := by
  rcases lt_or_eq_of_le (length2_nonneg v) with hlt | heq
  · exact hlt
  · exact absurd ((length2_eq_zero_iff v).mp heq.symm) h

theorem length_sq (v : V3 ℝ) : internalLength v * internalLength v = internalLength2 v :=
  Real.mul_self_sqrt (length2_nonneg v)

theorem length_nonneg (v : V3 ℝ) : 0 ≤ internalLength v := Real.sqrt_nonneg _

theorem length_pos (v : V3 ℝ) (h : v ≠ 0) : 0 < internalLength v :=
  Real.sqrt_pos.mpr (length2_pos v h)

theorem length_eq_zero_iff (v : V3 ℝ) : internalLength v = 0 ↔ v = 0 := by
  unfold internalLength
  rw [Real.sqrt_eq_zero (length2_nonneg v)]
  exact length2_eq_zero_iff v

theorem length_eq_one_iff (v : V3 ℝ) : internalLength v = 1 ↔ internalLength2 v = 1 := by
  unfold internalLength
  constructor
  · intro h
    have := congrArg (fun t => t * t) h
    simpa [Real.mul_self_sqrt (length2_nonneg v)] using this
  · intro h
    rw [h]
    exact Real.sqrt_one

theorem length2_smul (v : V3 ℝ) (k : ℝ) :
    internalLength2 (v * k) = internalLength2 v * (k * k) := by
  unfold internalLength2
  simp only [V3.smul_x, V3.smul_y, V3.smul_z]
  ring

theorem length_smul (v : V3 ℝ) (k : ℝ) :
    internalLength (v * k) = internalLength v * |k| := by
  unfold internalLength
  rw [length2_smul, show k * k = k ^ 2 by ring, Real.sqrt_mul (length2_nonneg v),
    Real.sqrt_sq_eq_abs]

theorem normalize_eq_smul (v : V3 ℝ) :
    internalNormalize v = v * (internalLength v)⁻¹ := by
  unfold internalNormalize
  ext <;> simp [div_eq_mul_inv]

theorem length_normalize (v : V3 ℝ) (h : v ≠ 0) :
    internalLength (internalNormalize v) = 1 := by
  have hpos := length_pos v h
  rw [normalize_eq_smul, length_smul, abs_of_pos (inv_pos.mpr hpos),
    mul_inv_cancel₀ (ne_of_gt hpos)]

theorem normalize_smul_self (u : V3 ℝ) (k : ℝ) (hk : 0 < k)
    (hu : internalLength u = 1) : internalNormalize (u * k) = u := by
  rw [normalize_eq_smul, length_smul, hu, one_mul, abs_of_pos hk]
  ext <;> simp <;> field_simp

theorem dot_comm (a b : V3 ℝ) : internalDot a b = internalDot b a := by
  unfold internalDot
  ring

theorem dot_cross_left (a b : V3 ℝ) : internalDot (internalCross a b) a = 0 := by
  unfold internalDot internalCross
  simp only
  ring

theorem dot_cross_right (a b : V3 ℝ) : internalDot (internalCross a b) b = 0 := by
  unfold internalDot internalCross
  simp only
  ring

theorem dot_neg_right (a b : V3 ℝ) : internalDot a (-b) = -internalDot a b := by
  unfold internalDot
  simp only [V3.neg_x, V3.neg_y, V3.neg_z]
  ring

theorem dot_smul_left (a : V3 ℝ) (k : ℝ) (b : V3 ℝ) :
    internalDot (a * k) b = k * internalDot a b := by
  unfold internalDot
  simp only [V3.smul_x, V3.smul_y, V3.smul_z]
  ring

theorem dot_smul_right (a : V3 ℝ) (b : V3 ℝ) (k : ℝ) :
    internalDot a (b * k) = k * internalDot a b := by
  unfold internalDot
  simp only [V3.smul_x, V3.smul_y, V3.smul_z]
  ring

theorem dot_div (a b : V3 ℝ) (k : ℝ) :
    internalDot a (b / k) = internalDot a b / k := by
  unfold internalDot
  simp only [V3.div_x, V3.div_y, V3.div_z]
  field_simp
  try ring

theorem length2_eq_dot (v : V3 ℝ) : internalLength2 v = internalDot v v := rfl

theorem lagrange_cross (a b : V3 ℝ) :
    internalLength2 (internalCross a b) =
      internalLength2 a * internalLength2 b - internalDot a b * internalDot a b := by
  unfold internalLength2 internalCross internalDot
  simp only
  ring

theorem cross_cross_neg (u f : V3 ℝ) :
    internalCross (internalCross u f) (-f) =
      u * internalLength2 f - f * internalDot f u := by
  unfold internalCross internalLength2 internalDot
  ext <;> simp <;> ring

theorem cross_zero_right (u : V3 ℝ) : internalCross u 0 = 0 := by
  unfold internalCross
  ext <;> simp

theorem length2_div (v : V3 ℝ) (k : ℝ) (hk : k ≠ 0) :
    internalLength2 (v / k) = internalLength2 v / (k * k) := by
  unfold internalLength2
  simp only [V3.div_x, V3.div_y, V3.div_z]
  field_simp
  try ring

/-! The world-Y rotation performed by the yaw block. -/

@[simp] theorem rotY_y (x : ℝ) (v : V3 ℝ) : (rotY x v).y = v.y := rfl

theorem rotY_cross (x : ℝ) (a b : V3 ℝ) :
    internalCross (rotY x a) (rotY x b) = rotY x (internalCross a b) := by
  unfold internalCross rotY
  ext
  · simp only
    ring
  · simp only
    linear_combination (a.z * b.x - a.x * b.z) * Real.sin_sq_add_cos_sq x
  · simp only
    ring

theorem rotY_dot (x : ℝ) (a b : V3 ℝ) :
    internalDot (rotY x a) (rotY x b) = internalDot a b := by
  unfold internalDot rotY
  simp only
  linear_combination (a.x * b.x + a.z * b.z) * Real.sin_sq_add_cos_sq x

theorem rotY_length2 (x : ℝ) (v : V3 ℝ) :
    internalLength2 (rotY x v) = internalLength2 v := by
  rw [length2_eq_dot, length2_eq_dot]
  exact rotY_dot x v v

theorem rotY_smul (x : ℝ) (v : V3 ℝ) (k : ℝ) :
    rotY x (v * k) = rotY x v * k := by
  unfold rotY
  ext <;> simp <;> ring

theorem rotY_neg (x : ℝ) (v : V3 ℝ) : rotY x (-v) = -(rotY x v) := by
  unfold rotY
  ext <;> simp <;> ring

theorem rotY_rotY (a b : ℝ) (v : V3 ℝ) :
    rotY a (rotY b v) = rotY (b + a) v := by
  unfold rotY
  ext <;> simp [Real.cos_add, Real.sin_add] <;> ring

theorem rotY_zero (v : V3 ℝ) : rotY 0 v = v := by
  unfold rotY
  ext <;> simp

theorem rotY_two_pi (v : V3 ℝ) : rotY (2 * Real.pi) v = v := by
  unfold rotY
  ext <;> simp [Real.cos_two_pi, Real.sin_two_pi]

theorem rotY_ne_zero (x : ℝ) (v : V3 ℝ) (h : v ≠ 0) : rotY x v ≠ 0 := by
  intro hz
  apply h
  rw [← length2_eq_zero_iff, ← rotY_length2 x, length2_eq_zero_iff]
  exact hz

theorem dot_add_left (a b c : V3 ℝ) :
    internalDot (a + b) c = internalDot a c + internalDot b c := by
  unfold internalDot
  simp only [V3.add_x, V3.add_y, V3.add_z]
  ring

theorem length2_add_smul (a b : V3 ℝ) (k1 k2 : ℝ) :
    internalLength2 (a * k1 + b * k2) =
      internalLength2 a * (k1 * k1) + 2 * (k1 * k2) * internalDot a b +
        internalLength2 b * (k2 * k2) := by
  unfold internalLength2 internalDot
  simp only [V3.add_x, V3.add_y, V3.add_z, V3.smul_x, V3.smul_y, V3.smul_z]
  ring

theorem V3.sub_left_cancel {a b c : V3 ℝ} (h : a - b = a - c) : b = c := by
  have hx := congrArg V3.x h
  have hy := congrArg V3.y h
  have hz := congrArg V3.z h
  simp only [V3.sub_x, V3.sub_y, V3.sub_z] at hx hy hz
  ext <;> linarith

/-! Reductions of `internalCameraMove` to its blocks. -/

theorem cameraMove_yaw_only (x : ℝ) (hx : x ≠ 0) (c : CameraState) :
    internalCameraMove x 0 0 0 0 c = cameraYaw x c := by
  unfold internalCameraMove
  simp [hx]

theorem cameraMove_dolly_only (z : ℝ) (hz : z ≠ 0) (c : CameraState) :
    internalCameraMove 0 0 z 0 0 c = cameraDolly z c := by
  unfold internalCameraMove
  simp [hz]

theorem cameraMove_orbit (x y : ℝ) (c : CameraState) :
    internalCameraMove x y 0 0 0 c =
      (if y ≠ 0 then cameraPitch y (if x ≠ 0 then cameraYaw x c else c)
        else if x ≠ 0 then cameraYaw x c else c) := by
  unfold internalCameraMove
  simp

/-! Structure of the yaw block. -/

theorem cameraYaw_at (x : ℝ) (c : CameraState) : (cameraYaw x c).«at» = c.«at» := rfl

theorem cameraYaw_up_def (x : ℝ) (c : CameraState) :
    (cameraYaw x c).up = internalNormalize (yawNormalizeArg x c) := rfl

theorem cameraYaw_eye (x : ℝ) (c : CameraState) :
    (cameraYaw x c).eye = c.«at» - rotY x (c.«at» - c.eye) := rfl

theorem cameraYaw_fvec (x : ℝ) (c : CameraState) :
    (cameraYaw x c).«at» - (cameraYaw x c).eye = rotY x (c.«at» - c.eye) := by
  rw [cameraYaw_at, cameraYaw_eye]
  ext <;> simp

theorem cameraDolly_at (z : ℝ) (c : CameraState) : (cameraDolly z c).«at» = c.«at» := rfl

theorem cameraDolly_eye (c : CameraState) (z : ℝ) (hf : c.«at» - c.eye ≠ 0) :
    (cameraDolly z c).eye = c.eye + (c.«at» - c.eye) * (z * 0.025) := by
  have hL : internalLength (c.«at» - c.eye) ≠ 0 := ne_of_gt (length_pos _ hf)
  simp only [cameraDolly, internalNormalize]
  ext
  · simp only [V3.add_x, V3.smul_x, V3.sub_x, V3.div_x]
    field_simp
    ring
  · simp only [V3.add_y, V3.smul_y, V3.sub_y, V3.div_y]
    field_simp
    ring
  · simp only [V3.add_z, V3.smul_z, V3.sub_z, V3.div_z]
    field_simp
    ring

/-- C2 counterexample: there is no minimum-distance clamp anywhere in the dolly
path.  From the default camera (eye at distance 10 from the pivot), a single
scroll callback with `y = 20` (so `z = 40` after the `mouseScrollingSpeed`
factor) lands the eye exactly on the look-at point: the distance drops to 0,
which is at or below every configured positive minimum, refuting the claim for
arbitrary input magnitudes. -/
theorem scroll_collapses_distance_to_zero :
    defaultCamera.eye ≠ defaultCamera.«at» ∧
    (internalScrollCallback 20 defaultCamera).eye = defaultCamera.«at» ∧
    internalLength ((internalScrollCallback 20 defaultCamera).«at» -
      (internalScrollCallback 20 defaultCamera).eye) = 0 := by
  have hf : defaultCamera.«at» - defaultCamera.eye ≠ 0 := by
    intro h
    have := congrArg V3.x h
    simp [defaultCamera] at this
  have hmove : internalScrollCallback 20 defaultCamera = cameraDolly 40 defaultCamera := by
    unfold internalScrollCallback mouseScrollingSpeed
    rw [show (20 : ℝ) * 2 = 40 by norm_num]
    exact cameraMove_dolly_only 40 (by norm_num) defaultCamera
  have heye : (cameraDolly 40 defaultCamera).eye = defaultCamera.«at» := by
    rw [cameraDolly_eye defaultCamera 40 hf]
    ext <;> norm_num [defaultCamera]
  refine ⟨?_, ?_, ?_⟩
  · intro h
    have := congrArg V3.x h
    simp [defaultCamera] at this
  · rw [hmove, heye]
  · rw [hmove, cameraDolly_at, heye]
    have : defaultCamera.«at» - defaultCamera.«at» = 0 := by
      ext <;> simp
    rw [this]
    unfold internalLength
    rw [(length2_eq_zero_iff 0).mpr rfl]
    exact Real.sqrt_zero

/-- C2 (amended): the dolly step applies no clamp at all.  Its exact effect on
a non-degenerate camera is multiplicative: the pivot is unchanged and the
eye-to-pivot offset is scaled by `(1 - 0.025 z)`, so the distance becomes
`|1 - 0.025 z|` times the old one.  In particular `z = 40` collapses the eye
onto the pivot and `z > 40` crosses it; the claimed positive lower bound on
the distance does not exist. -/
theorem cameraDolly_scales_distance (c : CameraState) (z : ℝ)
    (hf : c.«at» - c.eye ≠ 0) :
    (cameraDolly z c).«at» = c.«at» ∧
    c.«at» - (cameraDolly z c).eye = (c.«at» - c.eye) * (1 - z * 0.025) ∧
    internalLength (c.«at» - (cameraDolly z c).eye) =
      internalLength (c.«at» - c.eye) * |1 - z * 0.025| := by
  have h2 : c.«at» - (cameraDolly z c).eye = (c.«at» - c.eye) * (1 - z * 0.025) := by
    rw [cameraDolly_eye c z hf]
    ext <;> simp <;> ring
  exact ⟨rfl, h2, by rw [h2, length_smul]⟩

/-- Witness for C2 (amended) at the default camera with `z = 40`: the scaling
factor is exactly `1 - 40 * 0.025 = 0`. -/
theorem cameraDolly_scales_distance_witness :
    defaultCamera.«at» - defaultCamera.eye ≠ 0 ∧
    internalLength (defaultCamera.«at» - (cameraDolly 40 defaultCamera).eye) =
      internalLength (defaultCamera.«at» - defaultCamera.eye) * |1 - 40 * 0.025| := by
  have hf : defaultCamera.«at» - defaultCamera.eye ≠ 0 := by
    intro h
    have := congrArg V3.x h
    simp [defaultCamera] at this
  exact ⟨hf, (cameraDolly_scales_distance defaultCamera 40 hf).2.2⟩

/-- C4 counterexample: nothing in `_internalCameraMove` checks for
`eye == at`.  On the degenerate default-up camera with `eye = at`, an orbit
step hands `internalNormalize` exactly the zero vector and the operation is
not rejected: the up vector is overwritten (in this real-valued model it
becomes the zero vector; the float code divides 0 by 0 and produces NaN),
so the orbit is not left as a no-op. -/
theorem degenerate_orbit_not_rejected :
    degenerateCamera.eye = degenerateCamera.«at» ∧
    yawNormalizeArg 1 degenerateCamera = 0 ∧
    (internalCameraMove 1 0 0 0 0 degenerateCamera).up = 0 ∧
    degenerateCamera.up = ⟨0, 1, 0⟩ ∧ ((0 : V3 ℝ) ≠ (⟨0, 1, 0⟩ : V3 ℝ)) := by
  have harg : yawNormalizeArg 1 degenerateCamera = 0 := by
    unfold yawNormalizeArg degenerateCamera internalCross
    ext <;> simp
  refine ⟨rfl, harg, ?_, rfl, ?_⟩
  · rw [cameraMove_yaw_only 1 one_ne_zero, cameraYaw_up_def, harg]
    unfold internalNormalize
    ext <;> simp
  · intro h
    have := congrArg V3.y h
    simp at this

/-- C4 (amended): the code has no `eye == at` guard.  With `eye = at`, any
executed yaw block passes the zero vector to `internalNormalize` and replaces
`up` by the zero vector in this real-valued model (NaN in float), while leaving
the eye in place; the dolly block leaves the eye unchanged in the model only
because the junk value `normalize(0)` is multiplied by the zero move scale (in
float it would make the eye NaN).  Neither operation is rejected up front. -/
theorem degenerate_camera_behavior (c : CameraState) (h : c.«at» = c.eye)
    (x z : ℝ) :
    yawNormalizeArg x c = 0 ∧
    (cameraYaw x c).up = 0 ∧
    (cameraYaw x c).eye = c.eye ∧
    (cameraDolly z c).eye = c.eye := by
  have hf : c.«at» - c.eye = 0 := by
    rw [h]
    ext <;> simp
  have harg : yawNormalizeArg x c = 0 := by
    unfold yawNormalizeArg
    rw [hf]
    ext <;> simp [internalCross]
  refine ⟨harg, ?_, ?_, ?_⟩
  · rw [cameraYaw_up_def, harg]
    unfold internalNormalize
    ext <;> simp
  · rw [cameraYaw_eye, hf]
    have : rotY x (0 : V3 ℝ) = 0 := by
      unfold rotY
      ext <;> simp
    rw [this, h]
    ext <;> simp
  · unfold cameraDolly
    rw [hf]
    unfold internalNormalize
    ext <;> simp

/-- Witness for C4 (amended) at the degenerate camera with `x = 1`, `z = 5`. -/
theorem degenerate_camera_behavior_witness :
    degenerateCamera.«at» = degenerateCamera.eye ∧
    (cameraYaw 1 degenerateCamera).up = 0 ∧
    (cameraDolly 5 degenerateCamera).eye = degenerateCamera.eye :=
  ⟨rfl, (degenerate_camera_behavior degenerateCamera rfl 1 5).2.1,
    (degenerate_camera_behavior degenerateCamera rfl 1 5).2.2.2⟩

/-! The yaw block under the roll-free invariant. -/

theorem yawNormalizeArg_eq (x : ℝ) (c : CameraState) (hroll : rollFree c) :
    yawNormalizeArg x c =
      rotY x (c.up * internalLength2 (c.«at» - c.eye) -
        (c.«at» - c.eye) * internalDot (c.«at» - c.eye) c.up) := by
  unfold yawNormalizeArg
  unfold rollFree at hroll
  have hs2 : (⟨(internalCross c.up (c.«at» - c.eye)).x * Real.cos x -
      (internalCross c.up (c.«at» - c.eye)).z * Real.sin x, 0,
      (internalCross c.up (c.«at» - c.eye)).x * Real.sin x +
      (internalCross c.up (c.«at» - c.eye)).z * Real.cos x⟩ : V3 ℝ) =
      rotY x (internalCross c.up (c.«at» - c.eye)) := by
    unfold rotY
    ext
    · rfl
    · exact hroll.symm
    · rfl
  show internalCross
      (⟨(internalCross c.up (c.«at» - c.eye)).x * Real.cos x -
        (internalCross c.up (c.«at» - c.eye)).z * Real.sin x, 0,
        (internalCross c.up (c.«at» - c.eye)).x * Real.sin x +
        (internalCross c.up (c.«at» - c.eye)).z * Real.cos x⟩ : V3 ℝ)
      (-(rotY x (c.«at» - c.eye))) = _
  rw [hs2, ← rotY_neg, rotY_cross, cross_cross_neg]

theorem cameraYaw_up_rollFree (x : ℝ) (c : CameraState)
    (hlen : internalLength2 c.up = 1)
    (hdot : internalDot c.up (c.«at» - c.eye) = 0)
    (hroll : rollFree c) (hf : c.«at» - c.eye ≠ 0) :
    (cameraYaw x c).up = rotY x c.up := by
  have hdot2 : internalDot (c.«at» - c.eye) c.up = 0 := by
    rw [dot_comm]
    exact hdot
  have harg : yawNormalizeArg x c =
      rotY x c.up * internalLength2 (c.«at» - c.eye) := by
    rw [yawNormalizeArg_eq x c hroll, hdot2]
    rw [← rotY_smul]
    congr 1
    ext <;> simp
  rw [cameraYaw_up_def, harg]
  exact normalize_smul_self _ _ (length2_pos _ hf)
    ((length_eq_one_iff _).mpr (by rw [rotY_length2]; exact hlen))

theorem cameraYaw_preserves_rollFree (x : ℝ) (c : CameraState)
    (hlen : internalLength2 c.up = 1)
    (hdot : internalDot c.up (c.«at» - c.eye) = 0)
    (hroll : rollFree c) (hf : c.«at» - c.eye ≠ 0) :
    internalLength2 (cameraYaw x c).up = 1 ∧
    internalDot (cameraYaw x c).up ((cameraYaw x c).«at» - (cameraYaw x c).eye) = 0 ∧
    rollFree (cameraYaw x c) ∧
    (cameraYaw x c).«at» - (cameraYaw x c).eye ≠ 0 := by
  have hup := cameraYaw_up_rollFree x c hlen hdot hroll hf
  have hfv := cameraYaw_fvec x c
  refine ⟨?_, ?_, ?_, ?_⟩
  · rw [hup, rotY_length2]
    exact hlen
  · rw [hup, hfv, rotY_dot]
    exact hdot
  · unfold rollFree
    rw [hup, hfv, rotY_cross, rotY_y]
    exact hroll
  · rw [hfv]
    exact rotY_ne_zero x _ hf

/-! Orbit steps preserve the camera invariant, given the yaw side condition. -/

theorem cameraYaw_invariant (x : ℝ) (c : CameraState)
    (hf : c.«at» - c.eye ≠ 0) (hv : yawNormalizeArg x c ≠ 0) :
    cameraInvariant (cameraYaw x c) := by
  have hfv := cameraYaw_fvec x c
  refine ⟨?_, ?_, ?_⟩
  · rw [cameraYaw_up_def]
    exact length_normalize _ hv
  · rw [cameraYaw_up_def, hfv, normalize_eq_smul, dot_smul_left]
    have h1 : internalDot (yawNormalizeArg x c) (-(rotY x (c.«at» - c.eye))) = 0 := by
      unfold yawNormalizeArg
      exact dot_cross_right _ _
    rw [dot_neg_right] at h1
    have h2 : internalDot (yawNormalizeArg x c) (rotY x (c.«at» - c.eye)) = 0 := by
      linarith
    rw [h2, mul_zero]
  · rw [hfv]
    exact rotY_ne_zero x _ hf

theorem cameraPitch_fvec (y : ℝ) (c : CameraState) :
    (cameraPitch y c).«at» - (cameraPitch y c).eye =
      ((c.«at» - c.eye) / internalLength (c.«at» - c.eye) * Real.cos y +
        c.up * Real.sin y) * internalLength (c.«at» - c.eye) := by
  unfold cameraPitch
  ext <;> simp

theorem cameraPitch_up_def (y : ℝ) (c : CameraState) :
    (cameraPitch y c).up =
      internalCross
        ((c.«at» - c.eye) / internalLength (c.«at» - c.eye) * Real.cos y +
          c.up * Real.sin y)
        (internalNormalize (internalCross c.up
          ((c.«at» - c.eye) / internalLength (c.«at» - c.eye)))) := rfl

theorem cameraPitch_invariant (y : ℝ) (c : CameraState) (h : cameraInvariant c) :
    cameraInvariant (cameraPitch y c) := by
  obtain ⟨hlen, hdot, hf⟩ := h
  have hL : internalLength (c.«at» - c.eye) ≠ 0 := ne_of_gt (length_pos _ hf)
  have hup2 : internalLength2 c.up = 1 := (length_eq_one_iff _).mp hlen
  -- the normalized view direction f1 is a unit vector orthogonal to up
  have hf1len : internalLength2 ((c.«at» - c.eye) / internalLength (c.«at» - c.eye)) = 1 := by
    rw [length2_div _ _ hL, ← length_sq]
    field_simp
  have hdot1 : internalDot c.up ((c.«at» - c.eye) / internalLength (c.«at» - c.eye)) = 0 := by
    rw [dot_div, hdot, zero_div]
  -- the side vector s is unit
  have hs0 : internalLength2 (internalCross c.up
      ((c.«at» - c.eye) / internalLength (c.«at» - c.eye))) = 1 := by
    rw [lagrange_cross, hup2, hf1len, hdot1]
    ring
  have hs0len : internalLength (internalCross c.up
      ((c.«at» - c.eye) / internalLength (c.«at» - c.eye))) = 1 :=
    (length_eq_one_iff _).mpr hs0
  have hsnorm : internalNormalize (internalCross c.up
      ((c.«at» - c.eye) / internalLength (c.«at» - c.eye))) =
      internalCross c.up ((c.«at» - c.eye) / internalLength (c.«at» - c.eye)) := by
    rw [normalize_eq_smul, hs0len]
    ext <;> simp
  -- the rotated view direction f2 is unit
  have hf2len : internalLength2
      ((c.«at» - c.eye) / internalLength (c.«at» - c.eye) * Real.cos y +
        c.up * Real.sin y) = 1 := by
    rw [length2_add_smul, hf1len, hup2, dot_comm, hdot1]
    have := Real.sin_sq_add_cos_sq y
    nlinarith
  -- f2 is orthogonal to the side vector s
  have hf2s : internalDot
      ((c.«at» - c.eye) / internalLength (c.«at» - c.eye) * Real.cos y +
        c.up * Real.sin y)
      (internalCross c.up ((c.«at» - c.eye) / internalLength (c.«at» - c.eye))) = 0 := by
    rw [dot_add_left, dot_smul_left, dot_smul_left]
    have h1 : internalDot ((c.«at» - c.eye) / internalLength (c.«at» - c.eye))
        (internalCross c.up ((c.«at» - c.eye) / internalLength (c.«at» - c.eye))) = 0 := by
      rw [dot_comm]
      exact dot_cross_right _ _
    have h2 : internalDot c.up
        (internalCross c.up ((c.«at» - c.eye) / internalLength (c.«at» - c.eye))) = 0 := by
      rw [dot_comm]
      exact dot_cross_left _ _
    rw [h1, h2, mul_zero, mul_zero, add_zero]
  refine ⟨?_, ?_, ?_⟩
  · rw [cameraPitch_up_def, hsnorm, length_eq_one_iff, lagrange_cross, hf2len, hs0, hf2s]
    ring
  · rw [cameraPitch_up_def, cameraPitch_fvec, hsnorm, dot_smul_right]
    have := dot_cross_left
      ((c.«at» - c.eye) / internalLength (c.«at» - c.eye) * Real.cos y + c.up * Real.sin y)
      (internalCross c.up ((c.«at» - c.eye) / internalLength (c.«at» - c.eye)))
    rw [this, mul_zero]
  · rw [cameraPitch_fvec]
    intro hzero
    have hsq := congrArg internalLength2 hzero
    rw [length2_smul, hf2len, one_mul,
      (length2_eq_zero_iff (0 : V3 ℝ)).mpr rfl] at hsq
    exact hL (mul_self_eq_zero.mp hsq)

theorem orbitStep_invariant (x y : ℝ) (c : CameraState) (h : cameraInvariant c)
    (hv : x ≠ 0 → yawNormalizeArg x c ≠ 0) :
    cameraInvariant (internalCameraMove x y 0 0 0 c) := by
  rw [cameraMove_orbit]
  have h1 : cameraInvariant (if x ≠ 0 then cameraYaw x c else c) := by
    by_cases hx : x ≠ 0
    · rw [if_pos hx]
      exact cameraYaw_invariant x c h.2.2 (hv hx)
    · rw [if_neg hx]
      exact h
  by_cases hy : y ≠ 0
  · rw [if_pos hy]
    exact cameraPitch_invariant y _ h1
  · rw [if_neg hy]
    exact h1

/-- C3 (amended): the spec's orbit invariant survives every sequence of orbit
operations provided each executed yaw block hands `internalNormalize` a
nonzero vector (`orbitOpsOK`): starting from a camera with a unit up vector
orthogonal to the look direction and `eye != at`, after the sequence the up
vector still has length exactly 1 and is exactly orthogonal to `at - eye` in
this real-valued model.  Without that side condition the claim is false: see
the counterexample, where a valid camera whose side vector is vertical has its
up vector zeroed by a single yaw step. -/
theorem orbitSeq_preserves_invariant (c : CameraState) (ops : List (ℝ × ℝ))
    (h : cameraInvariant c) (hok : orbitOpsOK c ops) :
    cameraInvariant (orbitSeq c ops) := by
  induction ops generalizing c with
  | nil => exact h
  | cons op rest ih =>
    obtain ⟨h1, h2⟩ := hok
    exact ih _ (orbitStep_invariant op.1 op.2 c h h1) h2

/-- Witness for C3 (amended): the default camera satisfies the invariant and a
single pure-pitch orbit keeps it. -/
theorem orbitSeq_preserves_invariant_witness :
    cameraInvariant defaultCamera ∧
    cameraInvariant (orbitSeq defaultCamera [(0, 1)]) := by
  have hinv : cameraInvariant defaultCamera := by
    refine ⟨?_, ?_, ?_⟩
    · rw [length_eq_one_iff]
      norm_num [internalLength2, defaultCamera]
    · norm_num [internalDot, defaultCamera]
    · intro h
      have := congrArg V3.x h
      simp [defaultCamera] at this
  have hok : orbitOpsOK defaultCamera [(0, 1)] := by
    refine ⟨fun h0 => absurd rfl h0, trivial⟩
  exact ⟨hinv, orbitSeq_preserves_invariant _ _ hinv hok⟩

/-- C3 counterexample: the camera `eye = (0,0,-1)`, `at = 0`, `up = (1,0,0)`
satisfies the claimed precondition exactly (unit up, orthogonal to the look
direction), yet one yaw step zeroes the rotated side vector's only nonzero
component (its Y), passes the zero vector to `internalNormalize`, and leaves
an up vector of length 0, not 1: the invariant is not preserved by every orbit
operation from every valid state. -/
theorem orbit_breaks_up_invariant :
    cameraInvariant rolledUpCamera ∧
    (internalCameraMove 1 0 0 0 0 rolledUpCamera).up = 0 ∧
    ¬ cameraInvariant (internalCameraMove 1 0 0 0 0 rolledUpCamera) := by
  have hup : (internalCameraMove 1 0 0 0 0 rolledUpCamera).up = 0 := by
    rw [cameraMove_yaw_only 1 one_ne_zero, cameraYaw_up_def]
    have harg : yawNormalizeArg 1 rolledUpCamera = 0 := by
      unfold yawNormalizeArg rolledUpCamera internalCross
      ext <;> norm_num
    rw [harg]
    unfold internalNormalize
    ext <;> simp
  refine ⟨⟨?_, ?_, ?_⟩, hup, ?_⟩
  · rw [length_eq_one_iff]
    norm_num [internalLength2, rolledUpCamera]
  · norm_num [internalDot, rolledUpCamera]
  · intro h
    have := congrArg V3.z h
    simp [rolledUpCamera] at this
  · intro hinv
    have h1 := hinv.1
    rw [hup] at h1
    unfold internalLength at h1
    rw [(length2_eq_zero_iff 0).mpr rfl, Real.sqrt_zero] at h1
    exact zero_ne_one h1

/-! Iterated pure-yaw orbits. -/

theorem orbitIter_at_eye (x : ℝ) (hx : x ≠ 0) (k : ℕ) (c : CameraState) :
    (orbitIter x k c).«at» = c.«at» ∧
    (orbitIter x k c).«at» - (orbitIter x k c).eye =
      rotY ((k : ℝ) * x) (c.«at» - c.eye) := by
  induction k generalizing c with
  | zero =>
    refine ⟨rfl, ?_⟩
    show c.«at» - c.eye = _
    rw [Nat.cast_zero, zero_mul, rotY_zero]
  | succ k ih =>
    have hmove : internalCameraMove x 0 0 0 0 c = cameraYaw x c :=
      cameraMove_yaw_only x hx c
    obtain ⟨i1, i2⟩ := ih (cameraYaw x c)
    have hstep : orbitIter x (k + 1) c = orbitIter x k (cameraYaw x c) := by
      show orbitIter x k (internalCameraMove x 0 0 0 0 c) = _
      rw [hmove]
    rw [hstep]
    refine ⟨by rw [i1, cameraYaw_at], ?_⟩
    rw [i2, cameraYaw_at, cameraYaw_eye]
    have hinner : c.«at» - (c.«at» - rotY x (c.«at» - c.eye)) =
        rotY x (c.«at» - c.eye) := by
      ext <;> simp
    rw [hinner, rotY_rotY, show x + (k : ℝ) * x = ((k + 1 : ℕ) : ℝ) * x by
      push_cast; ring]

theorem orbitIter_up (x : ℝ) (hx : x ≠ 0) (k : ℕ) (c : CameraState)
    (hlen : internalLength2 c.up = 1)
    (hdot : internalDot c.up (c.«at» - c.eye) = 0)
    (hroll : rollFree c) (hf : c.«at» - c.eye ≠ 0) :
    (orbitIter x k c).up = rotY ((k : ℝ) * x) c.up := by
  induction k generalizing c with
  | zero =>
    show c.up = _
    rw [Nat.cast_zero, zero_mul, rotY_zero]
  | succ k ih =>
    have hmove : internalCameraMove x 0 0 0 0 c = cameraYaw x c :=
      cameraMove_yaw_only x hx c
    have hstep : orbitIter x (k + 1) c = orbitIter x k (cameraYaw x c) := by
      show orbitIter x k (internalCameraMove x 0 0 0 0 c) = _
      rw [hmove]
    obtain ⟨p1, p2, p3, p4⟩ := cameraYaw_preserves_rollFree x c hlen hdot hroll hf
    rw [hstep, ih (cameraYaw x c) p1 p2 p3 p4,
      cameraYaw_up_rollFree x c hlen hdot hroll hf, rotY_rotY,
      show x + (k : ℝ) * x = ((k + 1 : ℕ) : ℝ) * x by push_cast; ring]

/-- C9 (amended): for every starting camera state with `eye != at` and every
step count `n >= 1`, composing the pure-yaw orbit of angle `2 pi / n` exactly
`n` times holds the pivot `at` fixed throughout and returns the eye exactly to
its starting position - with no condition on the up vector at all.  The up
vector returns exactly as well when the camera additionally satisfies the
orbit invariant (unit up orthogonal to the look direction) and is roll-free
(the side vector `up x (at - eye)` is horizontal).  For a camera violating
those extra conditions the up vector need not return: see the counterexample,
whose non-unit up vector comes back normalized. -/
theorem full_turn_returns (c : CameraState) (n : ℕ) (hn : 0 < n) :
    (orbitIter (2 * Real.pi / n) n c).«at» = c.«at» ∧
    (orbitIter (2 * Real.pi / n) n c).eye = c.eye ∧
    (internalLength c.up = 1 → internalDot c.up (c.«at» - c.eye) = 0 →
      rollFree c → c.«at» - c.eye ≠ 0 →
      (orbitIter (2 * Real.pi / n) n c).up = c.up) := by
  have hnz : (n : ℝ) ≠ 0 := Nat.cast_ne_zero.mpr (by omega)
  have hX : (2 * Real.pi / n : ℝ) ≠ 0 :=
    div_ne_zero (by positivity) hnz
  have hfull : ((n : ℝ)) * (2 * Real.pi / n) = 2 * Real.pi := by
    field_simp
  obtain ⟨hat, hfv⟩ := orbitIter_at_eye _ hX n c
  have heye : (orbitIter (2 * Real.pi / n) n c).eye = c.eye := by
    rw [hfull, rotY_two_pi, hat] at hfv
    exact V3.sub_left_cancel hfv
  refine ⟨hat, heye, ?_⟩
  intro hlen hdot hroll hf
  have := orbitIter_up _ hX n c ((length_eq_one_iff _).mp hlen) hdot hroll hf
  rw [hfull, rotY_two_pi] at this
  exact this

/-- Witness for C9 (amended) at the default camera with a quarter-turn yaw
repeated four times. -/
theorem full_turn_returns_witness :
    (orbitIter (2 * Real.pi / 4) 4 defaultCamera).eye = defaultCamera.eye ∧
    (orbitIter (2 * Real.pi / 4) 4 defaultCamera).up = defaultCamera.up := by
  have h := full_turn_returns defaultCamera 4 (by norm_num)
  refine ⟨by exact_mod_cast h.2.1, ?_⟩
  have hup := h.2.2 (by rw [length_eq_one_iff]; norm_num [internalLength2, defaultCamera])
    (by norm_num [internalDot, defaultCamera])
    (by unfold rollFree; norm_num [internalCross, defaultCamera])
    (by
      intro hzero
      have := congrArg V3.x hzero
      simp [defaultCamera] at this)
  exact_mod_cast hup

/-- C9 counterexample: a quarter-turn yaw (90 degrees, which evenly divides a
full turn, so `360 / yaw = 4` repetitions) applied four times to the camera
`eye = (-1,-1,0)`, `at = 0`, `up = (0,0,2)` (a state with `eye != at`, as the
claim requires) brings the eye back but returns `up = (0,0,1)`, not the
starting `(0,0,2)`: a difference of a whole unit, far outside floating-point
tolerance, because every yaw step renormalizes the up vector.  The claim as
stated, quantifying over every starting camera state, is false. -/
theorem full_turn_up_not_restored :
    skewedCamera.«at» - skewedCamera.eye ≠ 0 ∧
    (orbitIter (2 * Real.pi / 4) 4 skewedCamera).up = ⟨0, 0, 1⟩ ∧
    skewedCamera.up = ⟨0, 0, 2⟩ ∧
    ((⟨0, 0, 1⟩ : V3 ℝ) ≠ (⟨0, 0, 2⟩ : V3 ℝ)) := by
  have hcos : Real.cos (2 * Real.pi / 4) = 0 := by
    rw [show 2 * Real.pi / 4 = Real.pi / 2 by ring]
    exact Real.cos_pi_div_two
  have hsin : Real.sin (2 * Real.pi / 4) = 1 := by
    rw [show 2 * Real.pi / 4 = Real.pi / 2 by ring]
    exact Real.sin_pi_div_two
  have hX : (2 * Real.pi / 4 : ℝ) ≠ 0 := by positivity
  have hs4 : Real.sqrt 4 = 2 := by
    rw [show (4 : ℝ) = 2 ^ 2 by norm_num]
    exact Real.sqrt_sq (by norm_num)
  have h1 : cameraYaw (2 * Real.pi / 4) skewedCamera =
      ⟨⟨0, -1, -1⟩, ⟨0, 0, 0⟩, ⟨-1, 0, 0⟩⟩ := by
    ext <;>
      simp only [cameraYaw, skewedCamera, internalCross, internalNormalize,
        internalLength, internalLength2, hcos, hsin, V3.sub_x, V3.sub_y, V3.sub_z,
        V3.neg_x, V3.neg_y, V3.neg_z] <;>
      norm_num [hs4]
  have h2 : cameraYaw (2 * Real.pi / 4) (⟨⟨0, -1, -1⟩, ⟨0, 0, 0⟩, ⟨-1, 0, 0⟩⟩ : CameraState) =
      ⟨⟨1, -1, 0⟩, ⟨0, 0, 0⟩, ⟨0, 0, -1⟩⟩ := by
    ext <;>
      simp only [cameraYaw, internalCross, internalNormalize,
        internalLength, internalLength2, hcos, hsin, V3.sub_x, V3.sub_y, V3.sub_z,
        V3.neg_x, V3.neg_y, V3.neg_z] <;>
      norm_num
  have h3 : cameraYaw (2 * Real.pi / 4) (⟨⟨1, -1, 0⟩, ⟨0, 0, 0⟩, ⟨0, 0, -1⟩⟩ : CameraState) =
      ⟨⟨0, -1, 1⟩, ⟨0, 0, 0⟩, ⟨1, 0, 0⟩⟩ := by
    ext <;>
      simp only [cameraYaw, internalCross, internalNormalize,
        internalLength, internalLength2, hcos, hsin, V3.sub_x, V3.sub_y, V3.sub_z,
        V3.neg_x, V3.neg_y, V3.neg_z] <;>
      norm_num
  have h4 : cameraYaw (2 * Real.pi / 4) (⟨⟨0, -1, 1⟩, ⟨0, 0, 0⟩, ⟨1, 0, 0⟩⟩ : CameraState) =
      ⟨⟨-1, -1, 0⟩, ⟨0, 0, 0⟩, ⟨0, 0, 1⟩⟩ := by
    ext <;>
      simp only [cameraYaw, internalCross, internalNormalize,
        internalLength, internalLength2, hcos, hsin, V3.sub_x, V3.sub_y, V3.sub_z,
        V3.neg_x, V3.neg_y, V3.neg_z] <;>
      norm_num
  have hmove : ∀ st, internalCameraMove (2 * Real.pi / 4) 0 0 0 0 st =
      cameraYaw (2 * Real.pi / 4) st := fun st => cameraMove_yaw_only _ hX st
  refine ⟨?_, ?_, rfl, ?_⟩
  · intro h
    have := congrArg V3.x h
    simp [skewedCamera] at this
  · show (orbitIter (2 * Real.pi / 4) 4 skewedCamera).up = _
    simp only [orbitIter, hmove, h1, h2, h3, h4]
  · intro h
    have := congrArg V3.z h
    norm_num at this

end TinyRender
